import Mathlib

/-
  Verification development for the tinyalloc arena allocator
  (src/tinyalloc.c, src/tinyalloc.h).

  The C code is shallowly embedded: the backing region is split into a
  header store (heap : Nat -> Header, indexed by the header address) and a
  data-byte store (mem : Nat -> Nat).  Addresses and sizes are natural
  numbers; every size_t / uintptr_t computation of the source that can
  wrap is performed modulo 2 ^ 64 (W64).  Pointer-chasing while loops of
  the source become fuel-indexed recursions; theorems supply enough fuel
  for the lists they quantify over.  The constants fix the 64-bit
  reference target: WORDSIZE = sizeof(void*) = 8, HEADER_LENGHT = 4 *
  WORDSIZE = 32, as in tinyalloc.h.
-/

namespace TinyAlloc

/-- WORDSIZE = sizeof(void*) on the 64-bit reference target (tinyalloc.h). -/
def wordSize : Nat := 8

/-- HEADER_LENGHT = 4 * WORDSIZE (tinyalloc.h). -/
def headerLength : Nat := 4 * wordSize

/-- Size of the size_t / uintptr_t value space on the reference target. -/
def W64 : Nat := 2 ^ 64

/-- Wrapping subtraction of uintptr_t / size_t values: (a - b) mod 2^64. -/
def wsub (a b : Nat) : Nat :=
  (a % W64 + (W64 - b % W64)) % W64

/-- The named fields of union allocator_header (tinyalloc.h): canary, size,
prev, next.  prev and next are nullable pointers to other headers. -/
structure Header where
  canary : Nat
  size : Nat
  prev : Option Nat
  next : Option Nat
deriving DecidableEq

/-- arena_t bookkeeping (start_addr, arena_size, head, tail) together with
the contents of the backing region: block headers live in heap (indexed by
the address the header is written at), user data bytes live in mem. -/
structure ArenaState where
  start_addr : Nat
  arena_size : Nat
  head : Option Nat
  tail : Option Nat
  heap : Nat → Header
  mem : Nat → Nat

/-- arena_info_t (tinyalloc.h). -/
structure ArenaInfo where
  total_size : Nat
  used_size : Nat
  allocated_size : Nat
  fragmentation_bytes : Nat
  allocated_blocks : Nat
deriving DecidableEq

/-- Write a header at an address (one store of the header fields). -/
def hupd (heap : Nat → Header) (a : Nat) (h : Header) : Nat → Header :=
  fun x => if x = a then h else heap x

/-- next_padding_size (tinyalloc.c line 16): (size + (PADDING_SIZE - 1)) &
~(PADDING_SIZE - 1) on size_t, PADDING_SIZE = ALIGN_SIZE = WORDSIZE.  The
addition wraps modulo 2^64; the mask ~7 is 2^64 - 8. -/
def next_padding_size (size : Nat) : Nat :=
  ((size + (wordSize - 1)) % W64) &&& (W64 - wordSize)

/-- Numeric value of a nullable pointer, as the C casts to uintptr_t do:
NULL is 0. -/
def addrVal : Option Nat → Nat
  | none => 0
  | some a => a

/-- compute_canary (tinyalloc.c line 46): size XOR prev XOR next. -/
def compute_canary (h : Header) : Nat :=
  (h.size ^^^ addrVal h.prev) ^^^ addrVal h.next

/-- pointer_end_block (tinyalloc.c line 50): header address + HEADER_LENGHT
+ size, on uintptr_t. -/
def pointer_end_block (s : ArenaState) (a : Nat) : Nat :=
  (a + headerLength + (s.heap a).size) % W64

/-- available_block_space (tinyalloc.c line 63): gap from the end of the
block to the next header, or to the end of the arena for the last block. -/
def available_block_space (s : ArenaState) (a : Nat) : Nat :=
  match (s.heap a).next with
  | some nx => wsub nx (pointer_end_block s a)
  | none => wsub ((s.start_addr + s.arena_size) % W64) (pointer_end_block s a)

/-- ptr_to_header_ptr (tinyalloc.c line 73): data pointer minus HEADER_LENGHT. -/
def ptr_to_header_ptr (p : Nat) : Nat :=
  wsub p headerLength

/-- compute_block_size (tinyalloc.c line 77): padded size plus HEADER_LENGHT. -/
def compute_block_size (padded_size : Nat) : Nat :=
  (padded_size + headerLength) % W64

/-- header_to_dataptr (tinyalloc.c line 81): header address plus HEADER_LENGHT. -/
def header_to_dataptr (a : Nat) : Nat :=
  (a + headerLength) % W64

/-- arena_init (tinyalloc.c line 28): sets head and tail to NULL.  It
touches no other field of arena_t and no byte of the region. -/
def arena_init (a : ArenaState) : ArenaState :=
  { a with head := none, tail := none }

/-- arena_destroy (tinyalloc.c line 35): clears head, tail, arena_size and
start_addr. -/
def arena_destroy (a : ArenaState) : ArenaState :=
  { a with head := none, tail := none, arena_size := 0, start_addr := 0 }

/-- memcpy(dst, src, n) on the data-byte store; the source bytes are read
from the state before the write, as a non-overlapping C memcpy does. -/
def memcpy (mem : Nat → Nat) (dst src n : Nat) : Nat → Nat :=
  fun a => if dst ≤ a ∧ a < dst + n then mem (src + (a - dst)) else mem a

/-- The first-fit scan of a_malloc (tinyalloc.c lines 162-173): starting
from the head, advance while the current block has a successor and the gap
after it is too small; stop at the first block whose gap fits, or at the
last block.  Fuel bounds the pointer chase. -/
def scanFit (s : ArenaState) (block_size : Nat) : Nat → Nat → Nat
  | 0, actual => actual
  | fuel + 1, actual =>
    match (s.heap actual).next with
    | none => actual
    | some nx =>
      if block_size ≤ available_block_space s actual then actual
      else scanFit s block_size fuel nx

/-- a_malloc (tinyalloc.c lines 124-236).  Returns the updated state and
the data pointer (none = NULL).  Mirrors the source: the leading-gap
special case first (lines 136-155, which does not touch the old head
header), then the first-fit scan with the end-of-arena check written as
newblock + padded_size > arena_end (line 184), then the empty-arena case. -/
def a_malloc (fuel : Nat) (s : ArenaState) (size : Nat) : ArenaState × Option Nat :=
  let padded_size := next_padding_size size
  let block_size := compute_block_size padded_size
  let leading : Option (ArenaState × Option Nat) :=
    match s.head with
    | some headAddr =>
      if s.start_addr < headAddr ∧ block_size ≤ wsub headAddr s.start_addr then
        let nb0 : Header :=
          { canary := 0, size := padded_size, prev := none, next := some headAddr }
        let nb : Header := { nb0 with canary := compute_canary nb0 }
        some ({ s with heap := hupd s.heap s.start_addr nb, head := some s.start_addr },
              some (header_to_dataptr s.start_addr))
      else none
    | none => none
  match leading with
  | some r => r
  | none =>
    match s.head with
    | some headAddr =>
      let actual := scanFit s block_size fuel headAddr
      let newAddr := pointer_end_block s actual
      if (s.start_addr + s.arena_size) % W64 < (newAddr + padded_size) % W64 then
        (s, none)
      else
        let nb0 : Header :=
          { canary := 0, size := padded_size, prev := some actual, next := (s.heap actual).next }
        let nb : Header := { nb0 with canary := compute_canary nb0 }
        let heap1 := hupd s.heap newAddr nb
        let heap2 := hupd heap1 actual { heap1 actual with next := some newAddr }
        let heap3 := hupd heap2 actual { heap2 actual with canary := compute_canary (heap2 actual) }
        match (heap3 newAddr).next with
        | some nx =>
          let heap4 := hupd heap3 nx { heap3 nx with prev := some newAddr }
          let heap5 := hupd heap4 nx { heap4 nx with canary := compute_canary (heap4 nx) }
          ({ s with heap := heap5 }, some (header_to_dataptr newAddr))
        | none =>
          ({ s with heap := heap3, tail := some newAddr }, some (header_to_dataptr newAddr))
    | none =>
      if s.arena_size < block_size then (s, none)
      else
        let nb0 : Header := { canary := 0, size := padded_size, prev := none, next := none }
        let nb : Header := { nb0 with canary := compute_canary nb0 }
        ({ s with heap := hupd s.heap s.start_addr nb,
                  head := some s.start_addr, tail := some s.start_addr },
         some (header_to_dataptr s.start_addr))

/-- a_free (tinyalloc.c lines 291-319).  NULL is a no-op.  Otherwise the
header is unlinked: the previous neighbor gets next := freed.next (or head
is updated), the next neighbor gets prev := freed.prev (or tail is
updated).  As in the source, no canary is recomputed anywhere. -/
def a_free (s : ArenaState) (ptr : Option Nat) : ArenaState :=
  match ptr with
  | none => s
  | some p =>
    let hAddr := ptr_to_header_ptr p
    let h := s.heap hAddr
    let s1 :=
      match h.prev with
      | some pr => { s with heap := hupd s.heap pr { s.heap pr with next := h.next } }
      | none => { s with head := h.next }
    let h2 := s1.heap hAddr
    match h2.next with
    | some nx => { s1 with heap := hupd s1.heap nx { s1.heap nx with prev := h2.prev } }
    | none => { s1 with tail := h2.prev }

/-- a_realloc (tinyalloc.c lines 239-289).  NULL degrades to a_malloc;
shrink and grow-in-place update size and canary in place; otherwise a
fresh block of the padded size is allocated, actual_size bytes are copied,
and only then is the old block freed.  If the fresh allocation fails the
function returns NULL with the state a_malloc left (which is unchanged). -/
def a_realloc (fuel : Nat) (s : ArenaState) (ptr : Option Nat) (size : Nat) :
    ArenaState × Option Nat :=
  match ptr with
  | none => a_malloc fuel s size
  | some p =>
    let hAddr := ptr_to_header_ptr p
    let newsize_padded := next_padding_size size
    let actual_size := (s.heap hAddr).size
    if newsize_padded ≤ actual_size then
      let heap1 := hupd s.heap hAddr { s.heap hAddr with size := newsize_padded }
      let heap2 := hupd heap1 hAddr { heap1 hAddr with canary := compute_canary (heap1 hAddr) }
      ({ s with heap := heap2 }, some (header_to_dataptr hAddr))
    else
      let available_to_next := available_block_space s hAddr
      let required := newsize_padded - actual_size
      if required ≤ available_to_next then
        let heap1 := hupd s.heap hAddr { s.heap hAddr with size := newsize_padded }
        let heap2 := hupd heap1 hAddr { heap1 hAddr with canary := compute_canary (heap1 hAddr) }
        ({ s with heap := heap2 }, some (header_to_dataptr hAddr))
      else
        match a_malloc fuel s newsize_padded with
        | (s1, some q) =>
          let s2 := { s1 with mem := memcpy s1.mem q p actual_size }
          let s3 := a_free s2 (some p)
          (s3, some q)
        | (s1, none) => (s1, none)

/-- The accumulation loop of arena_info (tinyalloc.c lines 106-113): per
block add size + HEADER_LENGHT to allocated_size, bump allocated_blocks,
and if the block has a successor add its available space to
fragmentation_bytes; `last` tracks the last visited block. -/
def infoLoop (s : ArenaState) :
    Nat → Option Nat → ArenaInfo → Option Nat → ArenaInfo × Option Nat
  | 0, _, acc, last => (acc, last)
  | _ + 1, none, acc, last => (acc, last)
  | fuel + 1, some b, acc, _last =>
    let acc1 := { acc with
      allocated_size := (acc.allocated_size + ((s.heap b).size + headerLength)) % W64,
      allocated_blocks := (acc.allocated_blocks + 1) % W64 }
    let acc2 :=
      match (s.heap b).next with
      | some _ =>
        { acc1 with
          fragmentation_bytes :=
            (acc1.fragmentation_bytes + available_block_space s b) % W64 }
      | none => acc1
    infoLoop s fuel (s.heap b).next acc2 (some b)

/-- arena_info (tinyalloc.c lines 85-121).  Pure in the model: the C
function only writes through arena_info_ptr, never into the arena. -/
def arena_info (fuel : Nat) (s : ArenaState) : ArenaInfo :=
  let base : ArenaInfo :=
    { total_size := s.arena_size, used_size := 0, allocated_size := 0,
      fragmentation_bytes := 0, allocated_blocks := 0 }
  match s.head with
  | some headAddr =>
    match infoLoop s fuel (some headAddr) base none with
    | (acc, some l) =>
      { acc with
        used_size := wsub ((l + headerLength + (s.heap l).size) % W64) s.start_addr }
    | (acc, none) => acc
  | none => base

/-- chainSeg heap o L o2 holds when starting from the nullable pointer o and
following the next fields visits exactly the headers listed in L and ends
with the pointer o2. -/
def chainSeg (heap : Nat → Header) : Option Nat → List Nat → Option Nat → Bool
  | o, [], o2 => decide (o = o2)
  | o, a :: L, o2 => decide (o = some a) && chainSeg heap (heap a).next L o2

/-- chainB heap o L: the next-chain from o is exactly L (it ends at NULL). -/
def chainB (heap : Nat → Header) (o : Option Nat) (L : List Nat) : Bool :=
  chainSeg heap o L none

/-- Non-wrapping end address of a block: header address + HEADER_LENGHT +
size.  Coincides with pointer_end_block when it is below 2^64. -/
def blockEnd (s : ArenaState) (a : Nat) : Nat :=
  a + headerLength + (s.heap a).size

/-- wfChainB s prevEnd L: walking L, every header starts at or after the
running end (prevEnd for the first), and the final end is inside the
region.  Together with chainB this is the address-ordering / non-overlap
invariant of the header list. -/
def wfChainB (s : ArenaState) : Nat → List Nat → Bool
  | prevEnd, [] => decide (prevEnd ≤ s.start_addr + s.arena_size)
  | prevEnd, a :: L => decide (prevEnd ≤ a) && wfChainB s (blockEnd s a) L

/-- prevOkB heap pr L: along L, every header's prev field points at the
element before it (pr before the first). -/
def prevOkB (heap : Nat → Header) : Option Nat → List Nat → Bool
  | _, [] => true
  | pr, a :: L => decide ((heap a).prev = pr) && prevOkB heap (some a) L

/-- Spec-side total of the stats pass: sum over all headers of
size + header_length. -/
def spec_allocated_size (s : ArenaState) : List Nat → Nat
  | [] => 0
  | a :: L => ((s.heap a).size + headerLength) + spec_allocated_size s L

/-- Spec-side fragmentation: sum, over every header that has a successor,
of the gap between that header's end and the successor's start. -/
def spec_frag (s : ArenaState) : List Nat → Nat
  | [] => 0
  | [_] => 0
  | a :: b :: L => (b - blockEnd s a) + spec_frag s (b :: L)

/-- Spec-side used size: distance from region start to the end of the last
block, 0 for the empty list. -/
def spec_used (s : ArenaState) (L : List Nat) : Nat :=
  match L.getLast? with
  | some l => blockEnd s l - s.start_addr
  | none => 0

/-- All-zero data bytes, for building concrete states. -/
def zeroMem : Nat → Nat := fun _ => 0

/-- Header store with no block written yet. -/
def emptyHeap : Nat → Header :=
  fun _ => { canary := 0, size := 0, prev := none, next := none }

/-- Region [64, 64 + 1024) holding a single block whose header is at 128
(size 16, canary 16 = 16 XOR 0 XOR 0): there is a 64-byte leading gap. -/
def leadingGapState : ArenaState :=
  { start_addr := 64, arena_size := 1024, head := some 128, tail := some 128,
    heap := hupd emptyHeap 128 { canary := 16, size := 16, prev := none, next := none },
    mem := zeroMem }

/-- Region [0, 1024) holding three adjacent blocks with headers at 0, 48
and 96, each of size 16, all canaries valid. -/
def threeBlockState : ArenaState :=
  { start_addr := 0, arena_size := 1024, head := some 0, tail := some 96,
    heap := hupd (hupd (hupd emptyHeap
      0 { canary := 32, size := 16, prev := none, next := some 48 })
      48 { canary := 112, size := 16, prev := some 0, next := some 96 })
      96 { canary := 32, size := 16, prev := some 48, next := none },
    mem := zeroMem }

/-- Region [0, 80) holding one block at 0 of size 16 (footprint [0, 48)):
the only free room is the 32-byte tail gap [48, 80). -/
def tightTailState : ArenaState :=
  { start_addr := 0, arena_size := 80, head := some 0, tail := some 0,
    heap := hupd emptyHeap 0 { canary := 16, size := 16, prev := none, next := none },
    mem := zeroMem }

/-- Region [0, 1024) with no blocks. -/
def emptyState : ArenaState :=
  { start_addr := 0, arena_size := 1024, head := none, tail := none,
    heap := emptyHeap, mem := zeroMem }

/-- Region [0, 1024) holding two adjacent blocks with headers at 0 and 48,
each of size 16; the data bytes record their own address. -/
def twoBlockState : ArenaState :=
  { start_addr := 0, arena_size := 1024, head := some 0, tail := some 48,
    heap := hupd (hupd emptyHeap
      0 { canary := 32, size := 16, prev := none, next := some 48 })
      48 { canary := 16, size := 16, prev := some 0, next := none },
    mem := fun a => a }

/-- Region [0, 1024) holding blocks at 0 (size 16), 64 (size 8) and 160
(size 0), with interior gaps of 16 and 56 bytes. -/
def spreadState : ArenaState :=
  { start_addr := 0, arena_size := 1024, head := some 0, tail := some 160,
    heap := hupd (hupd (hupd emptyHeap
      0 { canary := 80, size := 16, prev := none, next := some 64 })
      64 { canary := 168, size := 8, prev := some 0, next := some 160 })
      160 { canary := 64, size := 0, prev := some 64, next := none },
    mem := zeroMem }

/-- Arena record with junk bounds 5 and 7, used to probe arena_init. -/
def junkArenaA : ArenaState :=
  { start_addr := 5, arena_size := 7, head := some 3, tail := some 4,
    heap := emptyHeap, mem := zeroMem }

/-- Arena record identical to junkArenaA except that arena_size is 9. -/
def junkArenaB : ArenaState :=
  { start_addr := 5, arena_size := 9, head := some 3, tail := some 4,
    heap := emptyHeap, mem := zeroMem }

theorem wsub_small (a b : Nat) (hba : b ≤ a) (ha : a < W64) : wsub a b = a - b := by
  unfold wsub W64 at *
  omega

theorem ptr_to_header_ptr_eq (p : Nat) (h32 : headerLength ≤ p) (hW : p < W64) :
    ptr_to_header_ptr p = p - headerLength := by
  unfold ptr_to_header_ptr wsub W64 headerLength wordSize at *
  omega

theorem header_to_dataptr_eq (a : Nat) (hW : a + headerLength < W64) :
    header_to_dataptr a = a + headerLength := by
  unfold header_to_dataptr W64 headerLength wordSize at *
  omega

theorem next_padding_size_zero : next_padding_size 0 = 0 := by decide

/-- Claim C1.  Code-bug evaluation.  On a region [64, 1088) whose single
block has its header at 128, a_malloc(10) takes the leading-gap path: the
new header is written at region start 64 with prev = none, next = the old
head 128, and head now points at 64 — but the old head at 128 keeps
prev = none (it should point at 64) and its old canary 16 (recomputing
with prev = 64 would give 80).  The source (tinyalloc.c lines 136-155)
never touches the old head header on this path. -/
theorem a_malloc_leading_gap_skips_old_head :
    (a_malloc 2 leadingGapState 10).2 = some 96 ∧
    (a_malloc 2 leadingGapState 10).1.head = some 64 ∧
    (a_malloc 2 leadingGapState 10).1.heap 64 =
      { canary := 144, size := 16, prev := none, next := some 128 } ∧
    ((a_malloc 2 leadingGapState 10).1.heap 128).prev = none ∧
    ((a_malloc 2 leadingGapState 10).1.heap 128).prev ≠ some 64 ∧
    ((a_malloc 2 leadingGapState 10).1.heap 128).canary = 16 ∧
    compute_canary { (a_malloc 2 leadingGapState 10).1.heap 128 with prev := some 64 } = 80 := by
  decide

/-- Claim C2.  Code-bug evaluation.  threeBlockState satisfies the canary
invariant (every stored canary equals the checksum of the header fields).
Freeing the middle block (data pointer 80, header 48) rewrites the first
block's next to 96 and the last block's prev to 0, but a_free
(tinyalloc.c lines 291-319) recomputes no canary, so both surviving
neighbors are left with stale canaries and the invariant is broken after a
completed a_free call. -/
theorem a_free_leaves_stale_neighbor_canaries :
    (threeBlockState.heap 0).canary = compute_canary (threeBlockState.heap 0) ∧
    (threeBlockState.heap 48).canary = compute_canary (threeBlockState.heap 48) ∧
    (threeBlockState.heap 96).canary = compute_canary (threeBlockState.heap 96) ∧
    ((a_free threeBlockState (some 80)).heap 0).next = some 96 ∧
    ((a_free threeBlockState (some 80)).heap 0).canary = 32 ∧
    compute_canary ((a_free threeBlockState (some 80)).heap 0) = 112 ∧
    ((a_free threeBlockState (some 80)).heap 0).canary ≠
      compute_canary ((a_free threeBlockState (some 80)).heap 0) ∧
    ((a_free threeBlockState (some 80)).heap 96).prev = some 0 ∧
    ((a_free threeBlockState (some 80)).heap 96).canary ≠
      compute_canary ((a_free threeBlockState (some 80)).heap 96) := by
  decide

/-- Claim C3.  Code-bug evaluation.  In tightTailState the padded request
16 needs a 48-byte footprint; the leading gap is 0 and the only other gap
(the tail gap) is 32, so by the claim a_malloc must return none.  The
source checks newblock + padded_size > arena_end (tinyalloc.c line 184),
forgetting HEADER_LENGHT, so the call returns the pointer 80 and the new
block (header at 48, end 96) extends 16 bytes past the region end 80. -/
theorem a_malloc_overruns_region_end :
    compute_block_size (next_padding_size 16) = 48 ∧
    tightTailState.head = some 0 ∧
    tightTailState.start_addr = 0 ∧
    available_block_space tightTailState 0 = 32 ∧
    (a_malloc 2 tightTailState 16).2 = some 80 ∧
    (a_malloc 2 tightTailState 16).2 ≠ none ∧
    (a_malloc 2 tightTailState 16).1.tail = some 48 ∧
    pointer_end_block (a_malloc 2 tightTailState 16).1 48 = 96 ∧
    tightTailState.start_addr + tightTailState.arena_size = 80 := by
  decide

/-- Claim C4.  Counterexample.  arena_init (tinyalloc.c lines 28-33) does
not set the region bounds: applied to two arena records that differ only
in the arena_size field, it returns records that still differ in
arena_size, so the initialization cannot be setting that bound — it merely
inherits whatever the caller stored there. -/
theorem arena_init_keeps_caller_bounds :
    junkArenaA.head = junkArenaB.head ∧
    junkArenaA.tail = junkArenaB.tail ∧
    junkArenaA.start_addr = junkArenaB.start_addr ∧
    (arena_init junkArenaA).arena_size = 7 ∧
    (arena_init junkArenaB).arena_size = 9 ∧
    (arena_init junkArenaA).arena_size ≠ (arena_init junkArenaB).arena_size := by
  refine ⟨rfl, rfl, rfl, rfl, rfl, ?_⟩
  decide

/-- Claim C4, amended.  arena_init empties the list (head = tail = none)
and has no failure mode, but leaves the region bounds — and every byte of
the region — exactly as the caller set them; binding start_addr and
arena_size is the host's job, done by writing the struct fields directly. -/
theorem arena_init_empties_list_only (a : ArenaState) :
    (arena_init a).head = none ∧
    (arena_init a).tail = none ∧
    (arena_init a).start_addr = a.start_addr ∧
    (arena_init a).arena_size = a.arena_size ∧
    (arena_init a).heap = a.heap ∧
    (arena_init a).mem = a.mem :=
  ⟨rfl, rfl, rfl, rfl, rfl, rfl⟩

/-- Claim C9.  For any live pointer p, a_realloc(arena, p, 0) pads 0 to 0,
takes the shrink branch (0 is at most the stored size), and returns the
same pointer p; the header keeps its links (so the block stays in the
list, now occupying only the header bytes), only its size becomes 0 and
its canary is recomputed; head, tail, the data bytes and every other
header are untouched. -/
theorem a_realloc_zero_keeps_block (fuel : Nat) (s : ArenaState) (p : Nat)
    (h32 : headerLength ≤ p) (hW : p < W64) :
    (a_realloc fuel s (some p) 0).2 = some p ∧
    ((a_realloc fuel s (some p) 0).1.heap (p - headerLength)).size = 0 ∧
    ((a_realloc fuel s (some p) 0).1.heap (p - headerLength)).prev =
      (s.heap (p - headerLength)).prev ∧
    ((a_realloc fuel s (some p) 0).1.heap (p - headerLength)).next =
      (s.heap (p - headerLength)).next ∧
    (a_realloc fuel s (some p) 0).1.head = s.head ∧
    (a_realloc fuel s (some p) 0).1.tail = s.tail ∧
    (a_realloc fuel s (some p) 0).1.mem = s.mem ∧
    ∀ b, b ≠ p - headerLength → (a_realloc fuel s (some p) 0).1.heap b = s.heap b := by
  have hptr : ptr_to_header_ptr p = p - headerLength := ptr_to_header_ptr_eq p h32 hW
  have hdp : header_to_dataptr (p - headerLength) = p := by
    rw [header_to_dataptr_eq]
    · unfold headerLength wordSize at h32 ⊢
      omega
    · unfold headerLength wordSize W64 at *
      omega
  simp only [a_realloc, hptr, next_padding_size_zero, Nat.zero_le, if_true, hdp, hupd]
  refine ⟨by trivial, by simp, by simp, by simp, by trivial, by trivial, by trivial, ?_⟩
  intro b hb
  simp [hb]

/-- Witness for a_realloc_zero_keeps_block: the middle block of
threeBlockState (data pointer 80, header 48) resized to 0. -/
theorem a_realloc_zero_keeps_block_witness :
    (a_realloc 1 threeBlockState (some 80) 0).2 = some 80 ∧
    ((a_realloc 1 threeBlockState (some 80) 0).1.heap (80 - headerLength)).size = 0 ∧
    ((a_realloc 1 threeBlockState (some 80) 0).1.heap (80 - headerLength)).prev =
      (threeBlockState.heap (80 - headerLength)).prev ∧
    ((a_realloc 1 threeBlockState (some 80) 0).1.heap (80 - headerLength)).next =
      (threeBlockState.heap (80 - headerLength)).next ∧
    (a_realloc 1 threeBlockState (some 80) 0).1.head = threeBlockState.head ∧
    (a_realloc 1 threeBlockState (some 80) 0).1.tail = threeBlockState.tail ∧
    (a_realloc 1 threeBlockState (some 80) 0).1.mem = threeBlockState.mem ∧
    ∀ b, b ≠ 80 - headerLength →
      (a_realloc 1 threeBlockState (some 80) 0).1.heap b = threeBlockState.heap b :=
  a_realloc_zero_keeps_block 1 threeBlockState 80 (by decide) (by decide)

/-- Claim C7.  In-place resize.  For a live block (data pointer p, header
at p - header_length), if the request shrinks the block (padded new size
at most the stored size) or grows it within the following gap (the
available space to the successor start, or to region end for the tail,
covers the additional bytes needed), then a_realloc updates the size field
in place, recomputes the canary over the new fields, and returns the same
pointer p; links, head, tail, the data bytes and all other headers are
untouched — nothing is moved or copied. -/
theorem a_realloc_in_place (fuel : Nat) (s : ArenaState) (p size : Nat)
    (h32 : headerLength ≤ p) (hW : p < W64)
    (hcase : next_padding_size size ≤ (s.heap (p - headerLength)).size ∨
      ((s.heap (p - headerLength)).size < next_padding_size size ∧
       next_padding_size size - (s.heap (p - headerLength)).size ≤
         available_block_space s (p - headerLength))) :
    (a_realloc fuel s (some p) size).2 = some p ∧
    ((a_realloc fuel s (some p) size).1.heap (p - headerLength)).size =
      next_padding_size size ∧
    ((a_realloc fuel s (some p) size).1.heap (p - headerLength)).prev =
      (s.heap (p - headerLength)).prev ∧
    ((a_realloc fuel s (some p) size).1.heap (p - headerLength)).next =
      (s.heap (p - headerLength)).next ∧
    ((a_realloc fuel s (some p) size).1.heap (p - headerLength)).canary =
      compute_canary { s.heap (p - headerLength) with size := next_padding_size size } ∧
    (a_realloc fuel s (some p) size).1.head = s.head ∧
    (a_realloc fuel s (some p) size).1.tail = s.tail ∧
    (a_realloc fuel s (some p) size).1.mem = s.mem ∧
    ∀ b, b ≠ p - headerLength → (a_realloc fuel s (some p) size).1.heap b = s.heap b := by
  have hptr : ptr_to_header_ptr p = p - headerLength := ptr_to_header_ptr_eq p h32 hW
  have hdp : header_to_dataptr (p - headerLength) = p := by
    rw [header_to_dataptr_eq]
    · unfold headerLength wordSize at h32 ⊢
      omega
    · unfold headerLength wordSize W64 at *
      omega
  rcases hcase with hle | ⟨hlt, hgap⟩
  · simp only [a_realloc, hptr, if_pos hle, hdp, hupd]
    refine ⟨by trivial, by simp, by simp, by simp, ?_, by trivial, by trivial, by trivial, ?_⟩
    · simp [compute_canary]
    · intro b hb
      simp [hb]
  · simp only [a_realloc, hptr, if_neg (Nat.not_le.mpr hlt), if_pos hgap, hdp, hupd]
    refine ⟨by trivial, by simp, by simp, by simp, ?_, by trivial, by trivial, by trivial, ?_⟩
    · simp [compute_canary]
    · intro b hb
      simp [hb]

/-- Witness for a_realloc_in_place: the tail block of twoBlockState (data
pointer 80, header 48, size 16) grown in place to 100 bytes (padded 104
fits in the 928-byte tail gap). -/
theorem a_realloc_in_place_witness :
    (a_realloc 1 twoBlockState (some 80) 100).2 = some 80 ∧
    ((a_realloc 1 twoBlockState (some 80) 100).1.heap (80 - headerLength)).size =
      next_padding_size 100 ∧
    ((a_realloc 1 twoBlockState (some 80) 100).1.heap (80 - headerLength)).prev =
      (twoBlockState.heap (80 - headerLength)).prev ∧
    ((a_realloc 1 twoBlockState (some 80) 100).1.heap (80 - headerLength)).next =
      (twoBlockState.heap (80 - headerLength)).next ∧
    ((a_realloc 1 twoBlockState (some 80) 100).1.heap (80 - headerLength)).canary =
      compute_canary { twoBlockState.heap (80 - headerLength) with
                       size := next_padding_size 100 } ∧
    (a_realloc 1 twoBlockState (some 80) 100).1.head = twoBlockState.head ∧
    (a_realloc 1 twoBlockState (some 80) 100).1.tail = twoBlockState.tail ∧
    (a_realloc 1 twoBlockState (some 80) 100).1.mem = twoBlockState.mem ∧
    ∀ b, b ≠ 80 - headerLength →
      (a_realloc 1 twoBlockState (some 80) 100).1.heap b = twoBlockState.heap b :=
  a_realloc_in_place 1 twoBlockState 80 100 (by decide) (by decide)
    (Or.inr ⟨by decide, by decide⟩)

/-- Claim C8.  a_free(NULL) changes nothing.  Freeing a live pointer p
unlinks its header h: the previous neighbor's next (or head when h.prev is
none) becomes h.next, and the next neighbor's prev (or tail when h.next is
none) becomes h.prev; the freed header itself, the data bytes, and every
header that is not a neighbor are untouched.  The aliasing hypotheses
(neighbors distinct from the block and from each other) hold for any
pointer previously returned by allocate/resize in a well-formed list. -/
theorem a_free_unlinks (s : ArenaState) (p : Nat)
    (h32 : headerLength ≤ p) (hW : p < W64)
    (hpx : (s.heap (p - headerLength)).prev ≠ some (p - headerLength))
    (hnx : (s.heap (p - headerLength)).next ≠ some (p - headerLength))
    (hpn : (s.heap (p - headerLength)).prev = (s.heap (p - headerLength)).next →
      (s.heap (p - headerLength)).prev = none) :
    a_free s none = s ∧
    (a_free s (some p)).head =
      (match (s.heap (p - headerLength)).prev with
       | none => (s.heap (p - headerLength)).next
       | some _ => s.head) ∧
    (a_free s (some p)).tail =
      (match (s.heap (p - headerLength)).next with
       | none => (s.heap (p - headerLength)).prev
       | some _ => s.tail) ∧
    (∀ pr, (s.heap (p - headerLength)).prev = some pr →
      (a_free s (some p)).heap pr =
        { s.heap pr with next := (s.heap (p - headerLength)).next }) ∧
    (∀ nx, (s.heap (p - headerLength)).next = some nx →
      (a_free s (some p)).heap nx =
        { s.heap nx with prev := (s.heap (p - headerLength)).prev }) ∧
    (a_free s (some p)).heap (p - headerLength) = s.heap (p - headerLength) ∧
    (a_free s (some p)).mem = s.mem ∧
    ∀ b, b ≠ p - headerLength → (s.heap (p - headerLength)).prev ≠ some b →
      (s.heap (p - headerLength)).next ≠ some b →
      (a_free s (some p)).heap b = s.heap b := by
  have hptr : ptr_to_header_ptr p = p - headerLength := ptr_to_header_ptr_eq p h32 hW
  refine ⟨rfl, ?_⟩
  rcases hp : (s.heap (p - headerLength)).prev with _ | pr <;>
    rcases hn : (s.heap (p - headerLength)).next with _ | nx
  · have e : a_free s (some p) = { s with head := none, tail := none } := by
      simp only [a_free, hptr]
      simp [hp, hn]
    rw [e]
    exact ⟨rfl, rfl, by simp, by simp, rfl, rfl, fun b _ _ _ => rfl⟩
  · have hnxh : ¬ (p - headerLength = nx) := fun h => hnx (h ▸ hn)
    have e : a_free s (some p) =
        { s with head := some nx,
                 heap := hupd s.heap nx { s.heap nx with prev := none } } := by
      simp only [a_free, hptr]
      simp [hp, hn]
    rw [e]
    refine ⟨rfl, rfl, by simp, ?_, ?_, rfl, ?_⟩
    · intro x hx
      rw [Option.some_inj] at hx
      subst hx
      simp [hupd]
    · simp [hupd, hnxh]
    · intro b _ _ hbn
      have hbnx : ¬ (b = nx) := fun h => hbn (by rw [h])
      simp [hupd, hbnx]
  · have hprh : ¬ (p - headerLength = pr) := fun h => hpx (h ▸ hp)
    have e : a_free s (some p) =
        { s with heap := hupd s.heap pr { s.heap pr with next := none },
                 tail := some pr } := by
      simp only [a_free, hptr]
      simp [hp, hn, hupd, hprh]
    rw [e]
    refine ⟨rfl, rfl, ?_, by simp, ?_, rfl, ?_⟩
    · intro x hx
      rw [Option.some_inj] at hx
      subst hx
      simp [hupd]
    · simp [hupd, hprh]
    · intro b _ hbp _
      have hbpr : ¬ (b = pr) := fun h => hbp (by rw [h])
      simp [hupd, hbpr]
  · have hprh : ¬ (p - headerLength = pr) := fun h => hpx (h ▸ hp)
    have hnxh : ¬ (p - headerLength = nx) := fun h => hnx (h ▸ hn)
    have hprnx : ¬ (pr = nx) := by
      intro h
      have := hpn (by rw [hp, hn, h])
      rw [hp] at this
      exact Option.noConfusion this
    have hnxpr : ¬ (nx = pr) := fun h => hprnx h.symm
    have e : a_free s (some p) =
        { s with heap := hupd (hupd s.heap pr { s.heap pr with next := some nx }) nx
                           { s.heap nx with prev := some pr } } := by
      simp only [a_free, hptr]
      simp [hp, hn, hupd, hprh, hnxpr]
    rw [e]
    refine ⟨rfl, rfl, ?_, ?_, ?_, rfl, ?_⟩
    · intro x hx
      rw [Option.some_inj] at hx
      subst hx
      simp [hupd, hprnx]
    · intro x hx
      rw [Option.some_inj] at hx
      subst hx
      simp [hupd]
    · simp [hupd, hprh, hnxh]
    · intro b _ hbp hbn
      have hbpr : ¬ (b = pr) := fun h => hbp (by rw [h])
      have hbnx : ¬ (b = nx) := fun h => hbn (by rw [h])
      simp [hupd, hbpr, hbnx]

/-- Witness for a_free_unlinks: freeing the middle block of
threeBlockState (data pointer 80, header 48, neighbors 0 and 96). -/
theorem a_free_unlinks_witness :
    a_free threeBlockState none = threeBlockState ∧
    (a_free threeBlockState (some 80)).head =
      (match (threeBlockState.heap (80 - headerLength)).prev with
       | none => (threeBlockState.heap (80 - headerLength)).next
       | some _ => threeBlockState.head) ∧
    (a_free threeBlockState (some 80)).tail =
      (match (threeBlockState.heap (80 - headerLength)).next with
       | none => (threeBlockState.heap (80 - headerLength)).prev
       | some _ => threeBlockState.tail) ∧
    (∀ pr, (threeBlockState.heap (80 - headerLength)).prev = some pr →
      (a_free threeBlockState (some 80)).heap pr =
        { threeBlockState.heap pr with
          next := (threeBlockState.heap (80 - headerLength)).next }) ∧
    (∀ nx, (threeBlockState.heap (80 - headerLength)).next = some nx →
      (a_free threeBlockState (some 80)).heap nx =
        { threeBlockState.heap nx with
          prev := (threeBlockState.heap (80 - headerLength)).prev }) ∧
    (a_free threeBlockState (some 80)).heap (80 - headerLength) =
      threeBlockState.heap (80 - headerLength) ∧
    (a_free threeBlockState (some 80)).mem = threeBlockState.mem ∧
    ∀ b, b ≠ 80 - headerLength →
      (threeBlockState.heap (80 - headerLength)).prev ≠ some b →
      (threeBlockState.heap (80 - headerLength)).next ≠ some b →
      (a_free threeBlockState (some 80)).heap b = threeBlockState.heap b :=
  a_free_unlinks threeBlockState 80 (by decide) (by decide) (by decide) (by decide)
    (by decide)

/-- Claim C10.  The padding computation wraps modulo 2^64: for every
requested size above SIZE_MAX - (word_size - 1), size + 7 overflows and
next_padding_size returns 0, strictly below the request.  a_malloc with
such a size therefore succeeds on a small empty arena, handing out the
pointer 32 backed by a block whose stored size is 0 instead of failing. -/
theorem next_padding_size_wraps (fuel sz : Nat)
    (hlo : W64 - wordSize < sz) (hhi : sz < W64) :
    next_padding_size sz = 0 ∧
    next_padding_size sz < sz ∧
    (a_malloc fuel emptyState sz).2 = some 32 ∧
    (a_malloc fuel emptyState sz).1.head = some 0 ∧
    ((a_malloc fuel emptyState sz).1.heap 0).size = 0 := by
  simp only [W64, wordSize] at hlo hhi
  have hnp : next_padding_size sz = 0 := by
    unfold next_padding_size wordSize W64
    have h7 : (sz + 7) % 2 ^ 64 ≤ 6 := by omega
    interval_cases h : ((sz + 7) % 2 ^ 64) <;> decide
  have hsz : a_malloc fuel emptyState sz = a_malloc fuel emptyState 0 := by
    unfold a_malloc
    rw [hnp, next_padding_size_zero]
  have h1 : compute_block_size 0 = 32 := by decide
  have h2 : header_to_dataptr 0 = 32 := by decide
  have e2 : a_malloc fuel emptyState 0 =
      ({ emptyState with
           heap := hupd emptyState.heap 0
             { canary := 0, size := 0, prev := none, next := none },
           head := some 0, tail := some 0 }, some 32) := by
    simp only [a_malloc, next_padding_size_zero, h1, h2]
    simp [emptyState, compute_canary, addrVal, h2]
  refine ⟨hnp, by omega, ?_, ?_, ?_⟩
  · rw [hsz, e2]
  · rw [hsz, e2]
  · rw [hsz, e2]
    simp [hupd]

/-- Witness for next_padding_size_wraps at the largest representable
request, SIZE_MAX = 2^64 - 1. -/
theorem next_padding_size_wraps_witness :
    next_padding_size (2 ^ 64 - 1) = 0 ∧
    next_padding_size (2 ^ 64 - 1) < 2 ^ 64 - 1 ∧
    (a_malloc 1 emptyState (2 ^ 64 - 1)).2 = some 32 ∧
    (a_malloc 1 emptyState (2 ^ 64 - 1)).1.head = some 0 ∧
    ((a_malloc 1 emptyState (2 ^ 64 - 1)).1.heap 0).size = 0 :=
  next_padding_size_wraps 1 (2 ^ 64 - 1) (by decide) (by decide)

theorem wf_start_le (s : ArenaState) :
    ∀ (L : List Nat) (pe : Nat), wfChainB s pe L = true →
      pe ≤ s.start_addr + s.arena_size
  | [], pe, h => by
    rw [wfChainB, decide_eq_true_eq] at h
    exact h
  | a :: L, pe, h => by
    rw [wfChainB, Bool.and_eq_true, decide_eq_true_eq] at h
    have h2 := wf_start_le s L (blockEnd s a) h.2
    unfold blockEnd headerLength wordSize at h2
    omega

theorem wf_mem_upper (s : ArenaState) :
    ∀ (L : List Nat) (pe : Nat), wfChainB s pe L = true →
      ∀ a, a ∈ L → blockEnd s a ≤ s.start_addr + s.arena_size
  | [], _, _, a, ha => absurd ha (List.not_mem_nil a)
  | b :: L, pe, h, a, ha => by
    rw [wfChainB, Bool.and_eq_true, decide_eq_true_eq] at h
    rcases List.mem_cons.1 ha with rfl | ha2
    · exact wf_start_le s L (blockEnd s a) h.2
    · exact wf_mem_upper s L (blockEnd s b) h.2 a ha2

theorem wf_mem_lower (s : ArenaState) :
    ∀ (L : List Nat) (pe : Nat), wfChainB s pe L = true →
      ∀ a, a ∈ L → pe ≤ a
  | [], _, _, a, ha => absurd ha (List.not_mem_nil a)
  | b :: L, pe, h, a, ha => by
    rw [wfChainB, Bool.and_eq_true, decide_eq_true_eq] at h
    rcases List.mem_cons.1 ha with rfl | ha2
    · exact h.1
    · have h2 := wf_mem_lower s L (blockEnd s b) h.2 a ha2
      have h1 := h.1
      unfold blockEnd headerLength wordSize at h2
      omega

theorem wf_retighten (s : ArenaState) (c : Nat) (L : List Nat) (pe : Nat)
    (h : wfChainB s pe (c :: L) = true) : wfChainB s c (c :: L) = true := by
  rw [wfChainB, Bool.and_eq_true, decide_eq_true_eq] at h ⊢
  exact ⟨le_refl c, h.2⟩

theorem wf_alloc_le (s : ArenaState) :
    ∀ (L : List Nat) (pe : Nat), wfChainB s pe L = true →
      pe + spec_allocated_size s L ≤ s.start_addr + s.arena_size
  | [], pe, h => by
    rw [wfChainB, decide_eq_true_eq] at h
    rw [spec_allocated_size]
    omega
  | a :: L, pe, h => by
    rw [wfChainB, Bool.and_eq_true, decide_eq_true_eq] at h
    have h2 := wf_alloc_le s L (blockEnd s a) h.2
    rw [spec_allocated_size]
    unfold blockEnd at h2
    unfold headerLength wordSize at h2 ⊢
    omega

theorem wf_frag_cons (s : ArenaState) :
    ∀ (L : List Nat) (c : Nat), wfChainB s c (c :: L) = true →
      c + spec_frag s (c :: L) ≤ s.start_addr + s.arena_size
  | [], c, h => by
    rw [wfChainB, Bool.and_eq_true, decide_eq_true_eq, wfChainB, decide_eq_true_eq] at h
    rw [spec_frag]
    unfold blockEnd headerLength wordSize at h
    omega
  | b :: T, c, h => by
    rw [wfChainB, Bool.and_eq_true, decide_eq_true_eq] at h
    have hcb : blockEnd s c ≤ b ∧ wfChainB s (blockEnd s b) T = true := by
      have h2 := h.2
      rw [wfChainB, Bool.and_eq_true, decide_eq_true_eq] at h2
      exact h2
    have hr : wfChainB s b (b :: T) = true := by
      rw [wfChainB, Bool.and_eq_true, decide_eq_true_eq]
      exact ⟨le_refl b, hcb.2⟩
    have ih := wf_frag_cons s T b hr
    rw [spec_frag]
    have h1 := hcb.1
    unfold blockEnd at h1 ⊢
    unfold headerLength wordSize at h1 ⊢
    omega

theorem length_le_spec_allocated (s : ArenaState) :
    ∀ L : List Nat, L.length ≤ spec_allocated_size s L
  | [] => by
    rw [spec_allocated_size]
    exact Nat.le_refl 0
  | a :: L => by
    have ih := length_le_spec_allocated s L
    rw [spec_allocated_size, List.length_cons]
    unfold headerLength wordSize
    omega

theorem chainB_none (heap : Nat → Header) (L : List Nat)
    (h : chainB heap none L = true) : L = [] := by
  cases L with
  | nil => rfl
  | cons a T =>
    rw [chainB, chainSeg, Bool.and_eq_true, decide_eq_true_eq] at h
    exact absurd h.1 (by simp)

theorem chainB_cons (heap : Nat → Header) (a : Nat) (L : List Nat)
    (h : chainB heap (some a) L = true) :
    ∃ T, L = a :: T ∧ chainB heap ((heap a).next) T = true := by
  cases L with
  | nil =>
    rw [chainB, chainSeg, decide_eq_true_eq] at h
    exact absurd h (by simp)
  | cons b T =>
    rw [chainB, chainSeg, Bool.and_eq_true, decide_eq_true_eq] at h
    obtain ⟨h1, h2⟩ := h
    obtain rfl : a = b := Option.some_inj.1 h1
    exact ⟨T, rfl, h2⟩

theorem infoLoop_run (s : ArenaState) (hb : s.start_addr + s.arena_size < W64) :
    ∀ (L : List Nat) (fuel : Nat) (o : Option Nat) (acc : ArenaInfo)
      (last : Option Nat) (pe : Nat),
      chainB s.heap o L = true →
      wfChainB s pe L = true →
      acc.allocated_size < W64 →
      acc.allocated_blocks < W64 →
      acc.fragmentation_bytes < W64 →
      L.length ≤ fuel →
      infoLoop s fuel o acc last =
        ({ acc with
            allocated_size := (acc.allocated_size + spec_allocated_size s L) % W64,
            allocated_blocks := (acc.allocated_blocks + L.length) % W64,
            fragmentation_bytes := (acc.fragmentation_bytes + spec_frag s L) % W64 },
         match L.getLast? with
         | some l => some l
         | none => last)
  | [], fuel, o, acc, last, pe, hc, _, ha1, ha2, ha3, _ => by
    have ho : o = none := by
      cases o with
      | none => rfl
      | some a =>
        rw [chainB, chainSeg, decide_eq_true_eq] at hc
        exact absurd hc (by simp)
    subst ho
    have hL : ∀ f, infoLoop s f none acc last = (acc, last) := by
      intro f
      cases f <;> rfl
    rw [hL fuel]
    rw [spec_allocated_size, spec_frag, List.length_nil, List.getLast?_nil]
    rw [Nat.add_zero, Nat.add_zero, Nat.add_zero]
    rw [Nat.mod_eq_of_lt ha1, Nat.mod_eq_of_lt ha2, Nat.mod_eq_of_lt ha3]
  | a :: L, fuel, o, acc, last, pe, hc, hwf, ha1, ha2, ha3, hf => by
    rw [chainB, chainSeg, Bool.and_eq_true, decide_eq_true_eq] at hc
    obtain ⟨rfl, hc2⟩ := hc
    rw [wfChainB, Bool.and_eq_true, decide_eq_true_eq] at hwf
    obtain ⟨hpe, hwf2⟩ := hwf
    cases fuel with
    | zero => simp at hf
    | succ f =>
      have hfT : L.length ≤ f := by
        rw [List.length_cons] at hf
        omega
      have hend : blockEnd s a ≤ s.start_addr + s.arena_size :=
        wf_start_le s L (blockEnd s a) hwf2
      have hWpos : 0 < W64 := by decide
      cases L with
      | nil =>
        have hnx : (s.heap a).next = none := by
          rw [chainSeg, decide_eq_true_eq] at hc2
          exact hc2
        have hstop : ∀ (g : Nat) (acc0 : ArenaInfo),
            infoLoop s g none acc0 (some a) = (acc0, some a) := by
          intro g acc0
          cases g <;> rfl
        simp only [infoLoop, hnx, hstop]
        rw [spec_allocated_size, spec_allocated_size, spec_frag]
        simp only [List.length_cons, List.length_nil, List.getLast?_singleton,
          Nat.add_zero]
        rw [Nat.mod_eq_of_lt ha3]
      | cons b T =>
        rw [chainSeg, Bool.and_eq_true, decide_eq_true_eq] at hc2
        obtain ⟨hnx, hc3⟩ := hc2
        have hwf2c := hwf2
        rw [wfChainB, Bool.and_eq_true, decide_eq_true_eq] at hwf2c
        obtain ⟨hab, hwf3⟩ := hwf2c
        have hbend : blockEnd s b ≤ s.start_addr + s.arena_size :=
          wf_start_le s T (blockEnd s b) hwf3
        have hbW : b < W64 := by
          unfold blockEnd headerLength wordSize at hbend
          omega
        have hpeb : pointer_end_block s a = blockEnd s a := by
          unfold pointer_end_block blockEnd at *
          exact Nat.mod_eq_of_lt (by omega)
        have hav : available_block_space s a = b - blockEnd s a := by
          unfold available_block_space
          rw [hnx, hpeb]
          exact wsub_small b (blockEnd s a) hab hbW
        have hcB : chainB s.heap (some b) (b :: T) = true := by
          rw [chainB, chainSeg, Bool.and_eq_true, decide_eq_true_eq]
          exact ⟨rfl, hc3⟩
        have ih := infoLoop_run s hb (b :: T) f (some b)
          ({ acc with
              allocated_size :=
                (acc.allocated_size + ((s.heap a).size + headerLength)) % W64,
              allocated_blocks := (acc.allocated_blocks + 1) % W64,
              fragmentation_bytes :=
                (acc.fragmentation_bytes + (b - blockEnd s a)) % W64 })
          (some a) (blockEnd s a) hcB hwf2
          (Nat.mod_lt _ hWpos) (Nat.mod_lt _ hWpos) (Nat.mod_lt _ hWpos) hfT
        simp only [infoLoop, hnx, hav]
        rw [ih]
        obtain ⟨l, hl⟩ := Option.isSome_iff_exists.mp
          (List.getLast?_isSome.mpr (List.cons_ne_nil b T))
        simp only [List.getLast?_cons_cons, hl, spec_allocated_size, spec_frag,
          List.length_cons]
        refine congrArg₂ Prod.mk ?_ rfl
        congr 1
        · rw [Nat.mod_add_mod]
          congr 1
          omega
        · rw [Nat.mod_add_mod]
          congr 1
          omega
        · rw [Nat.mod_add_mod]
          congr 1
          omega

theorem getLast?_mem_list (l : List Nat) (a : Nat) (h : l.getLast? = some a) :
    a ∈ l := by
  obtain ⟨hne, rfl⟩ := List.mem_getLast?_eq_getLast (Option.mem_def.mpr h)
  exact List.getLast_mem hne

/-- Claim C6.  arena_info is pure in the model (the C function only writes
through its out-parameter, never into the arena) and, for any state whose
header list is the well-formed chain L, returns exactly:
allocated_blocks = the number of headers, allocated_size = the sum of
size + header_length over all headers, fragmentation_bytes = the sum of
the gaps between each header's end and its successor's start (headers
without a successor contribute nothing, so room before the first or after
the last block is not counted), and used_size = the distance from
region_start to the end of the last (highest-address) block — 0 when the
list is empty. -/
theorem arena_info_matches_spec (fuel : Nat) (s : ArenaState) (L : List Nat)
    (hc : chainB s.heap s.head L = true)
    (hwf : wfChainB s s.start_addr L = true)
    (hb : s.start_addr + s.arena_size < W64)
    (hf : L.length ≤ fuel) :
    arena_info fuel s =
      { total_size := s.arena_size,
        used_size := spec_used s L,
        allocated_size := spec_allocated_size s L,
        fragmentation_bytes := spec_frag s L,
        allocated_blocks := L.length } := by
  cases hh : s.head with
  | none =>
    rw [hh] at hc
    obtain rfl := chainB_none s.heap L hc
    unfold arena_info
    rw [hh]
    simp [spec_used, spec_allocated_size, spec_frag]
  | some a0 =>
    rw [hh] at hc
    obtain ⟨T, rfl, _h2⟩ := chainB_cons s.heap a0 L hc
    have hWpos : (0:Nat) < W64 := by decide
    have halloc := wf_alloc_le s (a0 :: T) s.start_addr hwf
    have hfrag := wf_frag_cons s T a0 (wf_retighten s a0 T s.start_addr hwf)
    have hlen := length_le_spec_allocated s (a0 :: T)
    have hrun := infoLoop_run s hb (a0 :: T) fuel (some a0)
      { total_size := s.arena_size, used_size := 0, allocated_size := 0,
        fragmentation_bytes := 0, allocated_blocks := 0 } none s.start_addr
      hc hwf hWpos hWpos hWpos hf
    obtain ⟨l, hl⟩ := Option.isSome_iff_exists.mp
      (List.getLast?_isSome.mpr (List.cons_ne_nil a0 T))
    have hlmem : l ∈ a0 :: T := getLast?_mem_list (a0 :: T) l hl
    have hlup : blockEnd s l ≤ s.start_addr + s.arena_size :=
      wf_mem_upper s (a0 :: T) s.start_addr hwf l hlmem
    have hllo : s.start_addr ≤ l := wf_mem_lower s (a0 :: T) s.start_addr hwf l hlmem
    have hltW : l + headerLength + (s.heap l).size < W64 := by
      unfold blockEnd at hlup
      omega
    have hused : wsub ((l + headerLength + (s.heap l).size) % W64) s.start_addr =
        blockEnd s l - s.start_addr := by
      rw [Nat.mod_eq_of_lt hltW]
      have he : l + headerLength + (s.heap l).size = blockEnd s l := rfl
      rw [he]
      refine wsub_small (blockEnd s l) s.start_addr ?_ ?_
      · unfold blockEnd
        omega
      · unfold blockEnd
        omega
    unfold arena_info
    rw [hh]
    simp only [hrun, hl, hused]
    congr 1
    · simp only [spec_used, hl]
    · rw [Nat.zero_add]
      exact Nat.mod_eq_of_lt (by omega)
    · rw [Nat.zero_add]
      exact Nat.mod_eq_of_lt (by omega)
    · rw [Nat.zero_add]
      exact Nat.mod_eq_of_lt (by omega)

/-- Witness for arena_info_matches_spec on spreadState, whose chain is
[0, 64, 160]: three blocks, footprints 48 + 40 + 32 = 120, interior gaps
16 + 56 = 72, last block ending at 192. -/
theorem arena_info_matches_spec_witness :
    arena_info 4 spreadState =
      { total_size := 1024, used_size := 192, allocated_size := 120,
        fragmentation_bytes := 72, allocated_blocks := 3 } :=
  (arena_info_matches_spec 4 spreadState [0, 64, 160] (by decide) (by decide)
    (by decide) (by decide)).trans (by decide)

theorem chainSeg_congr (h1 h2 : Nat → Header) :
    ∀ (L : List Nat) (o o2 : Option Nat),
      (∀ a, a ∈ L → (h1 a).next = (h2 a).next) →
      chainSeg h1 o L o2 = chainSeg h2 o L o2
  | [], _, _, _ => rfl
  | a :: L, o, o2, hag => by
    rw [chainSeg, chainSeg, hag a (List.mem_cons_self a L),
      chainSeg_congr h1 h2 L ((h2 a).next) o2
        (fun b hb => hag b (List.mem_cons_of_mem a hb))]

theorem chainSeg_append (heap : Nat → Header) :
    ∀ (X Y : List Nat) (o o2 : Option Nat),
      chainSeg heap o (X ++ Y) o2 = true ↔
        ∃ m, chainSeg heap o X m = true ∧ chainSeg heap m Y o2 = true
  | [], Y, o, o2 => by
    simp only [List.nil_append]
    constructor
    · intro h
      exact ⟨o, by simp [chainSeg], h⟩
    · rintro ⟨m, hm, h⟩
      rw [chainSeg, decide_eq_true_eq] at hm
      rw [hm]
      exact h
  | a :: X, Y, o, o2 => by
    rw [List.cons_append, chainSeg, Bool.and_eq_true, decide_eq_true_eq,
      chainSeg_append heap X Y ((heap a).next) o2]
    constructor
    · rintro ⟨ho, m, h1, h2⟩
      refine ⟨m, ?_, h2⟩
      rw [chainSeg, Bool.and_eq_true, decide_eq_true_eq]
      exact ⟨ho, h1⟩
    · rintro ⟨m, h1, h2⟩
      rw [chainSeg, Bool.and_eq_true, decide_eq_true_eq] at h1
      exact ⟨h1.1, m, h1.2, h2⟩

theorem wf_pairwise (s : ArenaState) :
    ∀ (L : List Nat) (pe : Nat), wfChainB s pe L = true → L.Pairwise (· < ·)
  | [], _, _ => List.Pairwise.nil
  | a :: L, pe, h => by
    rw [wfChainB, Bool.and_eq_true, decide_eq_true_eq] at h
    refine List.Pairwise.cons ?_ (wf_pairwise s L (blockEnd s a) h.2)
    intro b hb
    have hlow := wf_mem_lower s L (blockEnd s a) h.2 b hb
    unfold blockEnd at hlow
    unfold headerLength wordSize at hlow
    omega

theorem wf_nodup (s : ArenaState) (L : List Nat) (pe : Nat)
    (h : wfChainB s pe L = true) : L.Nodup :=
  (wf_pairwise s L pe h).imp (fun hlt => Nat.ne_of_lt hlt)

theorem wf_suffix (s : ArenaState) :
    ∀ (X R : List Nat) (pe : Nat), wfChainB s pe (X ++ R) = true →
      ∃ pe2, wfChainB s pe2 R = true
  | [], R, pe, h => ⟨pe, h⟩
  | a :: X, R, pe, h => by
    rw [List.cons_append, wfChainB, Bool.and_eq_true] at h
    exact wf_suffix s X R (blockEnd s a) h.2

theorem hupd_at (heap : Nat → Header) (a : Nat) (v : Header) : hupd heap a v a = v := by
  simp [hupd]

theorem hupd_ne (heap : Nat → Header) (a x : Nat) (v : Header) (h : ¬ (x = a)) :
    hupd heap a v x = heap x := by
  simp [hupd, h]

theorem scanFit_spec (s : ArenaState) (bs : Nat) :
    ∀ (fuel a : Nat) (L : List Nat),
      chainSeg s.heap (some a) (a :: L) none = true →
      L.length < fuel →
      ∃ X Y, a :: L = X ++ scanFit s bs fuel a :: Y ∧
        (((s.heap (scanFit s bs fuel a)).next = none ∧ Y = []) ∨
         (∃ d Y0, Y = d :: Y0 ∧ (s.heap (scanFit s bs fuel a)).next = some d ∧
           bs ≤ available_block_space s (scanFit s bs fuel a)))
  | 0, a, L, _, hf => absurd hf (by omega)
  | fuel + 1, a, L, hc, hf => by
    rw [chainSeg, Bool.and_eq_true] at hc
    obtain ⟨_, hc2⟩ := hc
    cases hnx : (s.heap a).next with
    | none =>
      have hL : L = [] := by
        cases L with
        | nil => rfl
        | cons b L0 =>
          rw [hnx, chainSeg, Bool.and_eq_true, decide_eq_true_eq] at hc2
          exact absurd hc2.1 (by simp)
      subst hL
      refine ⟨[], [], ?_, Or.inl ⟨?_, rfl⟩⟩
      · simp [scanFit, hnx]
      · simp only [scanFit, hnx]
    | some nx =>
      obtain ⟨L0, rfl⟩ : ∃ L0, L = nx :: L0 := by
        cases L with
        | nil =>
          rw [hnx, chainSeg, decide_eq_true_eq] at hc2
          exact absurd hc2 (by simp)
        | cons b L0 =>
          rw [hnx, chainSeg, Bool.and_eq_true, decide_eq_true_eq] at hc2
          obtain rfl : nx = b := Option.some_inj.mp hc2.1
          exact ⟨L0, rfl⟩
      by_cases hgap : bs ≤ available_block_space s a
      · refine ⟨[], nx :: L0, ?_, Or.inr ⟨nx, L0, ?_, ?_, ?_⟩⟩
        · simp only [scanFit, hnx]
          rw [if_pos hgap]
          rfl
        · rfl
        · simp only [scanFit, hnx]
          rw [if_pos hgap]
          exact hnx
        · simp only [scanFit, hnx]
          rw [if_pos hgap]
          exact hgap
      · have hcnx : chainSeg s.heap (some nx) (nx :: L0) none = true := by
          rw [hnx] at hc2
          exact hc2
        have hfnx : L0.length < fuel := by
          rw [List.length_cons] at hf
          omega
        obtain ⟨X, Y, hXY, hdisj⟩ := scanFit_spec s bs fuel nx L0 hcnx hfnx
        have hred : scanFit s bs (fuel + 1) a = scanFit s bs fuel nx := by
          simp only [scanFit, hnx]
          rw [if_neg hgap]
        refine ⟨a :: X, Y, ?_, ?_⟩
        · rw [List.cons_append, hred, ← hXY]
        · rw [hred]
          exact hdisj

theorem a_malloc_fail (fuel : Nat) (s : ArenaState) (size : Nat) (s1 : ArenaState)
    (h : a_malloc fuel s size = (s1, none)) : s1 = s := by
  cases hh : s.head with
  | none =>
    simp only [a_malloc, hh] at h
    split at h
    · injection h with h1 h2
      exact h1.symm
    · injection h with h1 h2
      exact Option.noConfusion h2
  | some a0 =>
    simp only [a_malloc, hh] at h
    by_cases hc : s.start_addr < a0 ∧
        compute_block_size (next_padding_size size) ≤ wsub a0 s.start_addr
    · rw [if_pos hc] at h
      dsimp only at h
      injection h with h1 h2
      exact Option.noConfusion h2
    · rw [if_neg hc] at h
      dsimp only at h
      repeat' split at h
      all_goals
        first
          | (injection h with h1 h2; exact h1.symm)
          | (injection h with h1 h2; exact Option.noConfusion h2)


theorem tower3_at_out (heap : Nat → Header) (e r x : Nat) (nb v2 v3 : Header)
    (hxr : ¬ (x = r)) (hxe : ¬ (x = e)) :
    hupd (hupd (hupd heap e nb) r v2) r v3 x = heap x := by
  rw [hupd_ne _ _ _ _ hxr, hupd_ne _ _ _ _ hxr, hupd_ne _ _ _ _ hxe]

theorem tower3_at_r (heap : Nat → Header) (e r : Nat) (nb v2 v3 : Header) :
    hupd (hupd (hupd heap e nb) r v2) r v3 r = v3 :=
  hupd_at _ _ _

theorem tower3_at_e (heap : Nat → Header) (e r : Nat) (nb v2 v3 : Header)
    (her : ¬ (e = r)) :
    hupd (hupd (hupd heap e nb) r v2) r v3 e = nb := by
  rw [hupd_ne _ _ _ _ her, hupd_ne _ _ _ _ her, hupd_at]

theorem tower5_at_out (heap : Nat → Header) (e r d x : Nat) (nb v2 v3 v4 v5 : Header)
    (hxd : ¬ (x = d)) (hxr : ¬ (x = r)) (hxe : ¬ (x = e)) :
    hupd (hupd (hupd (hupd (hupd heap e nb) r v2) r v3) d v4) d v5 x = heap x := by
  rw [hupd_ne _ _ _ _ hxd, hupd_ne _ _ _ _ hxd, tower3_at_out _ _ _ _ _ _ _ hxr hxe]

theorem tower5_at_r (heap : Nat → Header) (e r d : Nat) (nb v2 v3 v4 v5 : Header)
    (hrd : ¬ (r = d)) :
    hupd (hupd (hupd (hupd (hupd heap e nb) r v2) r v3) d v4) d v5 r = v3 := by
  rw [hupd_ne _ _ _ _ hrd, hupd_ne _ _ _ _ hrd, tower3_at_r]

theorem tower5_at_e (heap : Nat → Header) (e r d : Nat) (nb v2 v3 v4 v5 : Header)
    (hed : ¬ (e = d)) (her : ¬ (e = r)) :
    hupd (hupd (hupd (hupd (hupd heap e nb) r v2) r v3) d v4) d v5 e = nb := by
  rw [hupd_ne _ _ _ _ hed, hupd_ne _ _ _ _ hed, tower3_at_e _ _ _ _ _ _ her]

theorem tower5_at_d (heap : Nat → Header) (e r d : Nat) (nb v2 v3 v4 v5 : Header) :
    hupd (hupd (hupd (hupd (hupd heap e nb) r v2) r v3) d v4) d v5 d = v5 :=
  hupd_at _ _ _

set_option maxHeartbeats 1000000 in
theorem a_malloc_success_chain (fuel : Nat) (s : ArenaState) (L : List Nat) (size : Nat)
    (hchain : chainB s.heap s.head L = true)
    (hwf : wfChainB s s.start_addr L = true)
    (hW : s.start_addr + s.arena_size + next_padding_size size + headerLength < W64)
    (hfuel : L.length < fuel) :
    ∀ s2 q, a_malloc fuel s size = (s2, some q) →
      ∃ e X Y,
        L = X ++ Y ∧
        e ∉ L ∧
        q = e + headerLength ∧
        s2.mem = s.mem ∧
        chainB s2.heap s2.head (X ++ e :: Y) = true ∧
        (∀ a, a ∈ L → (s2.heap a).prev =
          (if X ≠ [] ∧ Y.head? = some a then some e else (s.heap a).prev)) := by
  intro s2 q heq
  have hbW : s.start_addr + s.arena_size < W64 := by omega
  cases hh : s.head with
  | none =>
    obtain rfl := chainB_none s.heap L (by rw [hh] at hchain; exact hchain)
    simp only [a_malloc, hh] at heq
    split at heq
    · injection heq with h1 h2
      exact Option.noConfusion h2
    · injection heq with h1 h2
      obtain rfl := h1.symm
      obtain rfl : header_to_dataptr s.start_addr = q := Option.some_inj.mp h2
      refine ⟨s.start_addr, [], [], rfl, by simp, ?_, rfl, ?_, by simp⟩
      · rw [header_to_dataptr]
        exact Nat.mod_eq_of_lt (by unfold headerLength wordSize at hW ⊢; omega)
      · rw [chainB]
        simp only [chainSeg, Bool.and_eq_true, decide_eq_true_eq]
        refine ⟨by trivial, ?_⟩
        simp [hupd]
  | some a0 =>
    rw [hh] at hchain
    obtain ⟨T, rfl, hcT⟩ := chainB_cons s.heap a0 L hchain
    have hwfu := hwf
    rw [wfChainB, Bool.and_eq_true, decide_eq_true_eq] at hwfu
    simp only [a_malloc, hh] at heq
    by_cases hlead : s.start_addr < a0 ∧
        compute_block_size (next_padding_size size) ≤ wsub a0 s.start_addr
    · -- leading-gap branch
      rw [if_pos hlead] at heq
      dsimp only at heq
      injection heq with h1 h2
      obtain rfl := h1.symm
      obtain rfl : header_to_dataptr s.start_addr = q := Option.some_inj.mp h2
      have hnot : s.start_addr ∉ a0 :: T := by
        intro hmem
        rcases List.mem_cons.mp hmem with h | h
        · exact absurd (h ▸ hlead.1) (lt_irrefl a0)
        · have h2m := wf_mem_lower s T (blockEnd s a0) hwfu.2 s.start_addr h
          have h3 := hlead.1
          unfold blockEnd at h2m
          unfold headerLength wordSize at h2m
          omega
      have ha0s : ¬ (a0 = s.start_addr) := by
        have := hlead.1
        omega
      refine ⟨s.start_addr, [], a0 :: T, by simp, hnot, ?_, rfl, ?_, ?_⟩
      · rw [header_to_dataptr]
        exact Nat.mod_eq_of_lt (by unfold headerLength wordSize at hW ⊢; omega)
      · rw [List.nil_append, chainB]
        simp only [chainSeg, Bool.and_eq_true, decide_eq_true_eq]
        refine ⟨by trivial, ?_, ?_⟩
        · simp [hupd]
        · rw [hupd_ne _ _ _ _ ha0s]
          have hTs : ∀ x, x ∈ T → ¬ (x = s.start_addr) := by
            intro x hx h
            exact hnot (h ▸ List.mem_cons_of_mem a0 hx)
          rw [chainSeg_congr _ s.heap T ((s.heap a0).next) none
            (fun x hx => by rw [hupd_ne _ _ _ _ (hTs x hx)])]
          rw [chainB] at hcT
          exact hcT
      · intro a ha
        have hne : ¬ (a = s.start_addr) := fun h => hnot (h ▸ ha)
        simp [hupd, hne]
    · rw [if_neg hlead] at heq
      dsimp only at heq
      set BS := compute_block_size (next_padding_size size) with hBSdef
      set r := scanFit s BS fuel a0 with hrdef
      have hchainSeg : chainSeg s.heap (some a0) (a0 :: T) none = true := by
        rw [chainB] at hchain
        exact hchain
      have hTf : T.length < fuel := by
        rw [List.length_cons] at hfuel
        omega
      obtain ⟨X1, Y1, hsplit, hdisj⟩ := scanFit_spec s BS fuel a0 T hchainSeg hTf
      rw [← hrdef] at hsplit hdisj
      have hrmem : r ∈ a0 :: T := by
        rw [hsplit]
        exact List.mem_append_right X1 (List.mem_cons_self r Y1)
      have hrup : blockEnd s r ≤ s.start_addr + s.arena_size :=
        wf_mem_upper s (a0 :: T) s.start_addr hwf r hrmem
      have hrupu : r + headerLength + (s.heap r).size ≤ s.start_addr + s.arena_size := by
        unfold blockEnd at hrup
        exact hrup
      have hhl : 0 < headerLength := by decide
      have hpeb : pointer_end_block s r = blockEnd s r := by
        rw [pointer_end_block, blockEnd]
        exact Nat.mod_eq_of_lt (by omega)
      have hNAr : ¬ (pointer_end_block s r = r) := by
        rw [hpeb]
        unfold blockEnd
        omega
      have hrNA : ¬ (r = pointer_end_block s r) := fun h => hNAr h.symm
      have hpw := wf_pairwise s (a0 :: T) s.start_addr hwf
      rw [hsplit] at hpw
      have hmemlt : ∀ x, x ∈ X1 → x < r := by
        intro x hx
        exact (List.pairwise_append.mp hpw).2.2 x hx r (List.mem_cons_self r Y1)
      have hegtr : r < pointer_end_block s r := by
        rw [hpeb]
        unfold blockEnd
        omega
      rcases hdisj with ⟨hrnone, rfl⟩ | ⟨d, Y0, rfl, hrd, hbs⟩
      · -- trailing insertion after the last block r
        by_cases hbnd : (s.start_addr + s.arena_size) % W64 <
            (pointer_end_block s r + next_padding_size size) % W64
        · rw [if_pos hbnd] at heq
          injection heq with h1 h2
          exact Option.noConfusion h2
        · rw [if_neg hbnd] at heq
          rw [hrnone] at heq
          rw [hupd_ne _ _ _ _ hNAr, hupd_ne _ _ _ _ hNAr, hupd_at] at heq
          dsimp only at heq
          injection heq with h1 h2
          obtain rfl := h1.symm
          obtain rfl : header_to_dataptr (pointer_end_block s r) = q :=
            Option.some_inj.mp h2
          have henot : pointer_end_block s r ∉ a0 :: T := by
            rw [hsplit]
            intro hmem
            rcases List.mem_append.mp hmem with hx | hx
            · have := hmemlt _ hx
              omega
            · rcases List.mem_cons.mp hx with h | h
              · omega
              · exact absurd h (List.not_mem_nil _)
          refine ⟨pointer_end_block s r, a0 :: T, [], (List.append_nil _).symm, henot,
            ?_, rfl, ?_, ?_⟩
          · rw [header_to_dataptr, hpeb]
            exact Nat.mod_eq_of_lt (by omega)
          · -- chain: X1 ++ [r, e]
            show chainSeg _ _ ((a0 :: T) ++ [pointer_end_block s r]) none = true
            rw [hsplit, List.append_assoc]
            rw [chainSeg_append]
            refine ⟨some r, ?_, ?_⟩
            · rw [hsplit] at hchainSeg
              obtain ⟨m, hm1, hm2⟩ := (chainSeg_append s.heap X1 [r] (some a0) none).mp
                hchainSeg
              rw [chainSeg, Bool.and_eq_true, decide_eq_true_eq] at hm2
              obtain rfl := hm2.1
              refine Eq.trans (chainSeg_congr _ s.heap X1 (some a0) (some r) ?_) hm1
              intro x hx
              dsimp only
              have hxr : ¬ (x = r) := by
                have := hmemlt x hx
                omega
              have hxNA : ¬ (x = pointer_end_block s r) := by
                have := hmemlt x hx
                omega
              rw [hupd_ne _ _ _ _ hxr, hupd_ne _ _ _ _ hxr, hupd_ne _ _ _ _ hxNA]
            · simp only [List.singleton_append, chainSeg, Bool.and_eq_true,
                decide_eq_true_eq]
              refine ⟨by trivial, ?_, ?_⟩
              · rw [hupd_at, hupd_at]
              · rw [hupd_ne _ _ _ _ hNAr, hupd_ne _ _ _ _ hNAr, hupd_at]
          · intro a ha
            have haNA : ¬ (a = pointer_end_block s r) := fun h => henot (h ▸ ha)
            dsimp only
            simp only [List.head?_nil]
            rw [if_neg (by simp)]
            by_cases har : a = r
            · subst har
              rw [hupd_at, hupd_at]
              rw [hupd_ne _ _ _ _ hrNA]
            · rw [hupd_ne _ _ _ _ har, hupd_ne _ _ _ _ har, hupd_ne _ _ _ _ haNA]
      · -- interior insertion between r and its successor d
        by_cases hbnd : (s.start_addr + s.arena_size) % W64 <
            (pointer_end_block s r + next_padding_size size) % W64
        · rw [if_pos hbnd] at heq
          injection heq with h1 h2
          exact Option.noConfusion h2
        · rw [if_neg hbnd] at heq
          rw [hrd] at heq
          rw [hupd_ne _ _ _ _ hNAr, hupd_ne _ _ _ _ hNAr, hupd_at] at heq
          dsimp only at heq
          injection heq with h1 h2
          obtain rfl := h1.symm
          obtain rfl : header_to_dataptr (pointer_end_block s r) = q :=
            Option.some_inj.mp h2
          -- ordering facts
          have hpwa := List.pairwise_append.mp hpw
          have hcross : ∀ x, x ∈ X1 → x < r :=
            fun x hx => hpwa.2.2 x hx r (List.mem_cons_self r (d :: Y0))
          have hpwr := List.pairwise_cons.mp hpwa.2.1
          have hrltd : r < d := hpwr.1 d (List.mem_cons_self d Y0)
          have hpwd := List.pairwise_cons.mp hpwr.2
          have hdY0 : ∀ y, y ∈ Y0 → d < y := hpwd.1
          have hwfsplit := hwf
          rw [hsplit] at hwfsplit
          obtain ⟨pe2, hwfr⟩ := wf_suffix s X1 (r :: d :: Y0) s.start_addr hwfsplit
          rw [wfChainB, Bool.and_eq_true, decide_eq_true_eq] at hwfr
          have hwfr2 := hwfr.2
          rw [wfChainB, Bool.and_eq_true, decide_eq_true_eq] at hwfr2
          have hadj : blockEnd s r ≤ d := hwfr2.1
          have hdup : blockEnd s d ≤ s.start_addr + s.arena_size :=
            wf_start_le s Y0 (blockEnd s d) hwfr2.2
          have hdW : d < W64 := by
            unfold blockEnd at hdup
            unfold headerLength wordSize at hdup
            omega
          have hBSeq : BS = next_padding_size size + headerLength := by
            rw [hBSdef, compute_block_size]
            exact Nat.mod_eq_of_lt (by omega)
          have hav : available_block_space s r = d - blockEnd s r := by
            unfold available_block_space
            rw [hrd, hpeb]
            exact wsub_small d (blockEnd s r) hadj hdW
          have hbsP : next_padding_size size + headerLength ≤ d - blockEnd s r := by
            rw [hBSeq] at hbs
            rw [hav] at hbs
            exact hbs
          have heltd : pointer_end_block s r < d := by
            rw [hpeb]
            omega
          have henot : pointer_end_block s r ∉ a0 :: T := by
            rw [hsplit]
            intro hmem
            rcases List.mem_append.mp hmem with hx | hx
            · have := hcross _ hx
              omega
            · rcases List.mem_cons.mp hx with h | h
              · omega
              · rcases List.mem_cons.mp h with h2 | h2
                · omega
                · have := hdY0 _ h2
                  omega
          have hrdne : ¬ (r = d) := by omega
          have hdrne : ¬ (d = r) := by omega
          have hdNA : ¬ (d = pointer_end_block s r) := by omega
          have hNAd : ¬ (pointer_end_block s r = d) := by omega
          refine ⟨pointer_end_block s r, X1 ++ [r], d :: Y0, ?_, henot, ?_, rfl, ?_, ?_⟩
          · rw [hsplit, List.append_assoc, List.singleton_append]
          · rw [header_to_dataptr, hpeb]
            exact Nat.mod_eq_of_lt (by omega)
          · -- chain: X1 ++ r :: e :: d :: Y0
            show chainSeg _ _ ((X1 ++ [r]) ++ pointer_end_block s r :: d :: Y0) none = true
            rw [List.append_assoc, List.singleton_append]
            dsimp only
            rw [chainSeg_append]
            refine ⟨some r, ?_, ?_⟩
            · rw [hsplit] at hchainSeg
              obtain ⟨m, hm1, hm2⟩ :=
                (chainSeg_append s.heap X1 (r :: d :: Y0) (some a0) none).mp hchainSeg
              rw [chainSeg, Bool.and_eq_true, decide_eq_true_eq] at hm2
              obtain rfl := hm2.1
              refine Eq.trans (chainSeg_congr _ s.heap X1 (some a0) (some r) ?_) hm1
              intro x hx
              have h1x : ¬ (x = d) := by
                have := hcross x hx
                omega
              have h2x : ¬ (x = r) := by
                have := hcross x hx
                omega
              have h3x : ¬ (x = pointer_end_block s r) := by
                have := hcross x hx
                omega
              rw [hupd_ne _ _ _ _ h1x, hupd_ne _ _ _ _ h1x, hupd_ne _ _ _ _ h2x,
                hupd_ne _ _ _ _ h2x, hupd_ne _ _ _ _ h3x]
            · simp only [chainSeg, Bool.and_eq_true, decide_eq_true_eq]
              refine ⟨by trivial, ?_, ?_, ?_⟩
              · rw [tower5_at_r _ _ _ _ _ _ _ _ _ hrdne, hupd_at]
              · rw [tower5_at_e _ _ _ _ _ _ _ _ _ hNAd hNAr]
              · refine Eq.trans (chainSeg_congr _ s.heap Y0 _ none ?_) ?_
                · intro y hy
                  have h1y : ¬ (y = d) := by
                    have := hdY0 y hy
                    omega
                  have h2y : ¬ (y = r) := by
                    have := hdY0 y hy
                    omega
                  have h3y : ¬ (y = pointer_end_block s r) := by
                    have := hdY0 y hy
                    omega
                  rw [tower5_at_out _ _ _ _ _ _ _ _ _ _ h1y h2y h3y]
                · rw [tower5_at_d, hupd_at, tower3_at_out _ _ _ _ _ _ _ hdrne hdNA]
                  rw [hsplit] at hchainSeg
                  obtain ⟨m, hm1, hm2⟩ :=
                    (chainSeg_append s.heap X1 (r :: d :: Y0) (some a0) none).mp hchainSeg
                  rw [chainSeg, Bool.and_eq_true] at hm2
                  have hm3 := hm2.2
                  rw [hrd, chainSeg, Bool.and_eq_true] at hm3
                  exact hm3.2
          · intro a ha
            dsimp only
            simp only [List.head?_cons]
            by_cases had : a = d
            · subst had
              rw [if_pos ⟨by simp, rfl⟩]
              rw [tower5_at_d, hupd_at]
            · rw [if_neg (fun hand => had (Option.some_inj.mp hand.2).symm)]
              have haNA : ¬ (a = pointer_end_block s r) := fun h => henot (h ▸ ha)
              by_cases har : a = r
              · subst har
                rw [tower5_at_r _ _ _ _ _ _ _ _ _ hrdne, hupd_at]
                rw [hupd_ne _ _ _ _ hrNA]
              · rw [tower5_at_out _ _ _ _ _ _ _ _ _ _ had har haNA]



theorem chainSeg_hupd_prev (heap : Nat → Header) (w : Nat) (p : Option Nat)
    (L : List Nat) (o o2 : Option Nat) :
    chainSeg (hupd heap w { heap w with prev := p }) o L o2 = chainSeg heap o L o2 :=
  chainSeg_congr _ heap L o o2 (fun a _ => by
    by_cases h : a = w
    · subst h
      rw [hupd_at]
    · rw [hupd_ne _ _ _ _ h])

theorem a_free_removes (t : ArenaState) (hA : Nat) (L2 : List Nat)
    (hWa : hA + headerLength < W64)
    (hchain : chainB t.heap t.head L2 = true)
    (hnd : L2.Nodup)
    (hpos : ((t.heap hA).prev = none ∧ hA ∈ L2) ∨
      (∃ X b Y, L2 = X ++ b :: hA :: Y ∧ (t.heap hA).prev = some b)) :
    ∃ L3, chainB (a_free t (some (hA + headerLength))).heap
        (a_free t (some (hA + headerLength))).head L3 = true ∧ hA ∉ L3 := by
  have hptr : ptr_to_header_ptr (hA + headerLength) = hA := by
    rw [ptr_to_header_ptr_eq _ (Nat.le_add_left _ _) hWa]
    omega
  rcases hpos with ⟨hprev, hmem⟩ | ⟨X, b, Y, rfl, hprev⟩
  · -- stale or genuine head case: prev = none, so head := hA.next
    obtain ⟨X, Y, rfl⟩ := List.append_of_mem hmem
    rw [chainB] at hchain
    obtain ⟨m, hm1, hm2⟩ := (chainSeg_append t.heap X (hA :: Y) t.head none).mp hchain
    rw [chainSeg, Bool.and_eq_true, decide_eq_true_eq] at hm2
    obtain rfl := hm2.1
    have hm3 := hm2.2
    have hAY : hA ∉ Y := by
      have hmid := List.nodup_middle.mp hnd
      rw [List.nodup_cons] at hmid
      intro hy
      exact hmid.1 (List.mem_append.mpr (Or.inr hy))
    refine ⟨Y, ?_, hAY⟩
    cases hnx : (t.heap hA).next with
    | none =>
      have hY : Y = [] := by
        rw [hnx] at hm3
        cases Y with
        | nil => rfl
        | cons y Y0 =>
          rw [chainSeg, Bool.and_eq_true, decide_eq_true_eq] at hm3
          exact absurd hm3.1 (by simp)
      subst hY
      have e : a_free t (some (hA + headerLength)) =
          { t with head := none, tail := none } := by
        simp only [a_free, hptr]
        simp [hprev, hnx]
      rw [e]
      simp [chainB, chainSeg]
    | some nx =>
      have e : a_free t (some (hA + headerLength)) =
          { t with head := some nx,
                   heap := hupd t.heap nx { t.heap nx with prev := none } } := by
        simp only [a_free, hptr]
        simp [hprev, hnx]
      rw [e]
      rw [chainB]
      dsimp only
      rw [chainSeg_hupd_prev]
      rw [hnx] at hm3
      exact hm3
  · -- interior case: prev = some b, the predecessor in the list
    have hnd2 : ((X ++ [b]) ++ hA :: Y).Nodup := by
      rw [List.append_assoc, List.singleton_append]
      exact hnd
    have hmid := (@List.nodup_middle Nat hA (X ++ [b]) Y).mp hnd2
    rw [List.nodup_cons] at hmid
    have hAXbY : hA ∉ (X ++ [b]) ++ Y := hmid.1
    have hAnotb : ¬ (hA = b) := by
      intro h
      exact hAXbY (List.mem_append.mpr (Or.inl (List.mem_append.mpr
        (Or.inr (h ▸ List.mem_cons_self b [])))))
    have hAL3 : hA ∉ X ++ b :: Y := by
      intro h
      rcases List.mem_append.mp h with hx | hx
      · exact hAXbY (List.mem_append.mpr (Or.inl (List.mem_append.mpr (Or.inl hx))))
      · rcases List.mem_cons.mp hx with h2 | h2
        · exact hAnotb h2
        · exact hAXbY (List.mem_append.mpr (Or.inr h2))
    have hmb := (@List.nodup_middle Nat b X (hA :: Y)).mp hnd
    rw [List.nodup_cons] at hmb
    have hbX : b ∉ X := fun h => hmb.1 (List.mem_append.mpr (Or.inl h))
    have hbY : b ∉ Y := fun h =>
      hmb.1 (List.mem_append.mpr (Or.inr (List.mem_cons_of_mem hA h)))
    rw [chainB] at hchain
    obtain ⟨m, hm1, hm2⟩ := (chainSeg_append t.heap X (b :: hA :: Y) t.head none).mp hchain
    rw [chainSeg, Bool.and_eq_true, decide_eq_true_eq] at hm2
    obtain rfl := hm2.1
    have hm3 := hm2.2
    rw [chainSeg, Bool.and_eq_true, decide_eq_true_eq] at hm3
    obtain ⟨hm3a, hm3b⟩ := hm3
    refine ⟨X ++ b :: Y, ?_, hAL3⟩
    cases hnx : (t.heap hA).next with
    | none =>
      have hY : Y = [] := by
        rw [hnx] at hm3b
        cases Y with
        | nil => rfl
        | cons y Y0 =>
          rw [chainSeg, Bool.and_eq_true, decide_eq_true_eq] at hm3b
          exact absurd hm3b.1 (by simp)
      subst hY
      have e : a_free t (some (hA + headerLength)) =
          { t with heap := hupd t.heap b { t.heap b with next := none },
                   tail := some b } := by
        simp only [a_free, hptr]
        simp [hprev, hnx, hAnotb, hupd]
      rw [e, chainB]
      dsimp only
      rw [chainSeg_append]
      refine ⟨some b, ?_, ?_⟩
      · refine Eq.trans (chainSeg_congr _ t.heap X t.head (some b) ?_) hm1
        intro x hx
        have hxb : ¬ (x = b) := fun h => hbX (h ▸ hx)
        rw [hupd_ne _ _ _ _ hxb]
      · simp only [chainSeg, Bool.and_eq_true, decide_eq_true_eq]
        refine ⟨by trivial, ?_⟩
        rw [hupd_at]
    | some nx =>
      have e : a_free t (some (hA + headerLength)) =
          { t with heap := (hupd (hupd t.heap b { t.heap b with next := some nx }) nx
              { (hupd t.heap b { t.heap b with next := some nx } nx) with
                prev := some b }) } := by
        simp only [a_free, hptr]
        simp [hprev, hnx, hAnotb, hupd]
      rw [e, chainB]
      dsimp only
      rw [chainSeg_hupd_prev]
      rw [chainSeg_append]
      refine ⟨some b, ?_, ?_⟩
      · refine Eq.trans (chainSeg_congr _ t.heap X t.head (some b) ?_) hm1
        intro x hx
        have hxb : ¬ (x = b) := fun h => hbX (h ▸ hx)
        rw [hupd_ne _ _ _ _ hxb]
      · simp only [chainSeg, Bool.and_eq_true, decide_eq_true_eq]
        refine ⟨by trivial, ?_⟩
        rw [hupd_at]
        refine Eq.trans (chainSeg_congr _ t.heap Y (some nx) none ?_) ?_
        · intro y hy
          have hyb : ¬ (y = b) := fun h => hbY (h ▸ hy)
          rw [hupd_ne _ _ _ _ hyb]
        · rw [hnx] at hm3b
          exact hm3b


theorem prevOkB_elim (heap : Nat → Header) :
    ∀ (A : List Nat) (pr : Option Nat) (c : Nat) (B : List Nat),
      prevOkB heap pr (A ++ c :: B) = true →
      (heap c).prev = (match A.getLast? with | some d => some d | none => pr)
  | [], pr, c, B, h => by
    rw [List.nil_append, prevOkB, Bool.and_eq_true, decide_eq_true_eq] at h
    simp only [List.getLast?_nil]
    exact h.1
  | a :: A, pr, c, B, h => by
    rw [List.cons_append, prevOkB, Bool.and_eq_true] at h
    have ih := prevOkB_elim heap A (some a) c B h.2
    cases A with
    | nil =>
      simp only [List.getLast?_nil] at ih
      simp only [List.getLast?_singleton]
      exact ih
    | cons a2 A2 =>
      rw [List.getLast?_cons_cons]
      exact ih


theorem next_padding_size_le (x : Nat) :
    next_padding_size x ≤ x + (wordSize - 1) := by
  rw [next_padding_size]
  exact le_trans Nat.and_le_left (Nat.mod_le _ _)

theorem a_free_mem (t : ArenaState) (ptr : Option Nat) : (a_free t ptr).mem = t.mem := by
  cases ptr with
  | none => rfl
  | some p =>
    simp only [a_free]
    repeat' split
    all_goals rfl

set_option maxHeartbeats 1000000 in
set_option maxRecDepth 2000 in
/-- Claim C5.  Grow-by-relocation: on a well-formed list, when the requested
padded size exceeds both the block's current size and what the trailing gap
can absorb, a_realloc either returns none with the arena state exactly as it
was, or returns a pointer to a different block whose first
min(old_size, new_size) data bytes equal the old block's data, with the old
header no longer on the header list. -/
theorem a_realloc_relocation_safe (fuel : Nat) (s : ArenaState) (L : List Nat)
    (hAddr size : Nat)
    (hchain : chainB s.heap s.head L = true)
    (hwf : wfChainB s s.start_addr L = true)
    (hprevOk : prevOkB s.heap none L = true)
    (hW : s.start_addr + s.arena_size + next_padding_size size + headerLength
      + wordSize < W64)
    (hfuel : L.length < fuel)
    (hmem : hAddr ∈ L)
    (hgrow : (s.heap hAddr).size < next_padding_size size)
    (hnofit : available_block_space s hAddr <
      next_padding_size size - (s.heap hAddr).size) :
    ∀ s2 r, a_realloc fuel s (some (hAddr + headerLength)) size = (s2, r) →
      (r = none → s2 = s) ∧
      (∀ q, r = some q →
        q ≠ hAddr + headerLength ∧
        (∀ i, i < min (s.heap hAddr).size size →
          s2.mem (q + i) = s.mem (hAddr + headerLength + i)) ∧
        ∃ L3, chainB s2.heap s2.head L3 = true ∧ hAddr ∉ L3) := by
  intro s2 r heq
  have hAW : hAddr + headerLength < W64 := by
    have h1 := wf_mem_upper s L s.start_addr hwf hAddr hmem
    unfold blockEnd at h1
    omega
  have hptr : ptr_to_header_ptr (hAddr + headerLength) = hAddr := by
    rw [ptr_to_header_ptr_eq _ (Nat.le_add_left _ _) hAW]
    omega
  have ndL : L.Nodup := wf_nodup s L s.start_addr hwf
  simp only [a_realloc, hptr] at heq
  rw [if_neg (Nat.not_le.mpr hgrow)] at heq
  rw [if_neg (Nat.not_le.mpr hnofit)] at heq
  cases hmal : a_malloc fuel s (next_padding_size size) with
  | mk s1 r1 =>
    rw [hmal] at heq
    cases r1 with
    | none =>
      injection heq with h1 h2
      obtain rfl := a_malloc_fail fuel s (next_padding_size size) s1 hmal
      subst h2
      refine ⟨fun _ => h1.symm, fun q hq => Option.noConfusion hq⟩
    | some q1 =>
      injection heq with h1 h2
      subst h1
      subst h2
      refine ⟨fun h => Option.noConfusion h, fun q hq => ?_⟩
      obtain rfl : q1 = q := Option.some_inj.mp hq
      have hWm : s.start_addr + s.arena_size +
          next_padding_size (next_padding_size size) + headerLength < W64 := by
        have h1 := next_padding_size_le (next_padding_size size)
        unfold wordSize at h1 hW
        omega
      obtain ⟨e, X, Y, hLXY, heL, hqe, hmem1, hchain2, hprev2⟩ :=
        a_malloc_success_chain fuel s L (next_padding_size size) hchain hwf hWm
          hfuel s1 q1 hmal
      subst hLXY
      have heA : ¬ (e = hAddr) := fun h => heL (h ▸ hmem)
      have hqne : q1 ≠ hAddr + headerLength := by
        rw [hqe]
        intro h
        exact heA (by omega)
      have hnd2 : (X ++ e :: Y).Nodup :=
        (@List.nodup_middle Nat e X Y).mpr (List.nodup_cons.mpr ⟨heL, ndL⟩)
      have P2 := hprev2 hAddr hmem
      have hpos2 : ((s1.heap hAddr).prev = none ∧ hAddr ∈ X ++ e :: Y) ∨
          (∃ A b B, X ++ e :: Y = A ++ b :: hAddr :: B ∧
            (s1.heap hAddr).prev = some b) := by
        rcases List.mem_append.mp hmem with hX | hY
        · -- the old block sits in the prefix before the new block
          have hAY : hAddr ∉ Y := fun h =>
            (List.disjoint_of_nodup_append ndL) hX h
          have hcond : ¬ (X ≠ [] ∧ Y.head? = some hAddr) := by
            rintro ⟨-, hh⟩
            exact hAY (List.mem_of_mem_head? (Option.mem_def.mpr hh))
          rw [if_neg hcond] at P2
          obtain ⟨X1, X2, rfl⟩ := List.append_of_mem hX
          have hpo : prevOkB s.heap none (X1 ++ hAddr :: (X2 ++ Y)) = true := by
            have h0 := hprevOk
            rw [List.append_assoc, List.cons_append] at h0
            exact h0
          have hprevS := prevOkB_elim s.heap X1 none hAddr (X2 ++ Y) hpo
          cases hgl : X1.getLast? with
          | none =>
            obtain rfl : X1 = [] := List.getLast?_eq_none_iff.mp hgl
            refine Or.inl ⟨?_, by simp⟩
            rw [P2]
            exact hprevS
          | some d =>
            have hX1 : X1.dropLast ++ [d] = X1 :=
              List.dropLast_append_getLast? d (Option.mem_def.mpr hgl)
            refine Or.inr ⟨X1.dropLast, d, X2 ++ e :: Y, ?_, ?_⟩
            · conv_lhs => rw [← hX1]
              simp [List.append_assoc]
            · rw [P2, hprevS, hgl]
        · -- the old block sits in the suffix after the new block
          obtain ⟨Y1, Y2, rfl⟩ := List.append_of_mem hY
          cases Y1 with
          | nil =>
            by_cases hXnil : X = []
            · subst hXnil
              rw [if_neg (by simp)] at P2
              have hpo : prevOkB s.heap none ([] ++ hAddr :: Y2) = true := by
                have h0 := hprevOk
                simp only [List.nil_append] at h0 ⊢
                exact h0
              have hprevS := prevOkB_elim s.heap [] none hAddr Y2 hpo
              refine Or.inl ⟨?_, by simp⟩
              rw [P2]
              exact hprevS
            · rw [if_pos ⟨hXnil, by simp⟩] at P2
              exact Or.inr ⟨X, e, Y2, by simp, P2⟩
          | cons y Y1t =>
            have ndY : ((y :: Y1t) ++ hAddr :: Y2).Nodup :=
              List.Nodup.of_append_right ndL
            have hyA : ¬ (hAddr = y) := by
              have hmid := (@List.nodup_middle Nat hAddr (y :: Y1t) Y2).mp ndY
              rw [List.nodup_cons] at hmid
              intro h
              refine hmid.1 (List.mem_append.mpr (Or.inl ?_))
              rw [h]
              exact List.mem_cons_self y Y1t
            have hcond : ¬ (X ≠ [] ∧
                ((y :: Y1t) ++ hAddr :: Y2).head? = some hAddr) := by
              rintro ⟨-, hh⟩
              simp only [List.cons_append, List.head?_cons] at hh
              exact hyA (Option.some_inj.mp hh).symm
            rw [if_neg hcond] at P2
            have hpo : prevOkB s.heap none ((X ++ y :: Y1t) ++ hAddr :: Y2)
                = true := by
              have h0 := hprevOk
              rw [← List.append_assoc] at h0
              exact h0
            have hprevS := prevOkB_elim s.heap (X ++ y :: Y1t) none hAddr Y2 hpo
            have hgl2 : (X ++ y :: Y1t).getLast? = (y :: Y1t).getLast? :=
              List.getLast?_append_of_ne_nil X (by simp)
            cases hgl : (y :: Y1t).getLast? with
            | none =>
              have hs : (y :: Y1t).getLast?.isSome :=
                List.getLast?_isSome.mpr (by simp)
              rw [hgl] at hs
              exact absurd hs (by simp)
            | some dl =>
              have hdl : (y :: Y1t).dropLast ++ [dl] = y :: Y1t :=
                List.dropLast_append_getLast? dl (Option.mem_def.mpr hgl)
              refine Or.inr ⟨X ++ e :: (y :: Y1t).dropLast, dl, Y2, ?_, ?_⟩
              · conv_lhs => rw [← hdl]
                simp [List.append_assoc]
              · rw [P2, hprevS, hgl2, hgl]
      refine ⟨hqne, ?_, ?_⟩
      · intro i hi
        have hib : i < (s.heap hAddr).size :=
          lt_of_lt_of_le hi (Nat.min_le_left _ _)
        rw [a_free_mem]
        show memcpy s1.mem q1 (hAddr + headerLength) ((s.heap hAddr).size)
            (q1 + i) = s.mem (hAddr + headerLength + i)
        simp only [memcpy]
        rw [if_pos (And.intro (Nat.le_add_right q1 i) (by omega))]
        have hsub : q1 + i - q1 = i := by omega
        rw [hsub, hmem1]
      · exact a_free_removes
          { s1 with mem := (memcpy s1.mem q1 (hAddr + headerLength) ((s.heap hAddr).size)) }
          hAddr (X ++ e :: Y) hAW hchain2 hnd2 hpos2

set_option maxRecDepth 3000 in
theorem a_realloc_relocation_safe_witness :
    ∃ L3, chainB (a_realloc 3 twoBlockState (some (0 + headerLength)) 17).1.heap
        (a_realloc 3 twoBlockState (some (0 + headerLength)) 17).1.head L3 = true ∧
      (0 : Nat) ∉ L3 :=
  ((a_realloc_relocation_safe 3 twoBlockState [0, 48] 0 17 (by decide) (by decide)
      (by decide) (by decide) (by decide) (by decide) (by decide) (by decide)
      (a_realloc 3 twoBlockState (some (0 + headerLength)) 17).1
      (a_realloc 3 twoBlockState (some (0 + headerLength)) 17).2
      Prod.mk.eta.symm).2 128
      (by decide)).2.2

end TinyAlloc
